import Mathlib

/-!
Verification of the TLS peer-identity matching core of this repository
(rtc_base openssl utility: VerifyPeerCertMatchesHost and its helpers).

The repository ships the unit test `rtc_base/openssl_utility_unittest.cc`;
the implementation file `rtc_base/openssl_utility.cc` itself is not part of
the source tree here, so the three components (PeerIdentityExtractor,
HostnameMatcher, VerificationOrchestrator) are modelled from the design
document, faithful to its stated algorithm, and checked against every
concrete expectation of the unit test.

Hostnames and patterns are modelled as lists of characters; certificates
carry the structured fields the extractor reads (SAN DNS entries, subject
common name) together with the fields the verifier is claimed to ignore
(validity dates, subject/issuer distinguished names); the session carries
an optional peer certificate and the chain-of-trust validation outcome.
-/

namespace OpensslUtility

/-- Modelled from the spec: ASCII-only case folding used by the matcher
(rule 1 of the HostnameMatcher algorithm); the implementation file holding
this folding is absent from the tree. Non-uppercase-ASCII characters are
returned unchanged, with no Unicode normalization. -/
def asciiLower (c : Char) : Char :=
  match c with
  | 'A' => 'a' | 'B' => 'b' | 'C' => 'c' | 'D' => 'd' | 'E' => 'e'
  | 'F' => 'f' | 'G' => 'g' | 'H' => 'h' | 'I' => 'i' | 'J' => 'j'
  | 'K' => 'k' | 'L' => 'l' | 'M' => 'm' | 'N' => 'n' | 'O' => 'o'
  | 'P' => 'p' | 'Q' => 'q' | 'R' => 'r' | 'S' => 's' | 'T' => 't'
  | 'U' => 'u' | 'V' => 'v' | 'W' => 'w' | 'X' => 'x' | 'Y' => 'y'
  | 'Z' => 'z'
  | c => c

/-- ASCII lowercasing of a whole character string. -/
def lowerChars (s : List Char) : List Char := s.map asciiLower

/-- Modelled from the spec: splitting a hostname string into its
dot-separated label sequence (rule 2 of the HostnameMatcher algorithm);
the implementation file holding this split is absent from the tree.
The empty string yields one empty label; every dot separates two labels. -/
def splitLabels : List Char → List (List Char)
  | [] => [[]]
  | c :: cs =>
      if c = '.' then [] :: splitLabels cs
      else
        match splitLabels cs with
        | [] => [[c]]
        | l :: ls => (c :: l) :: ls

/-- Rejoining a label sequence with dots; the left inverse of
`splitLabels`, used to relate label-level facts back to strings. -/
def joinLabels : List (List Char) → List Char
  | [] => []
  | [l] => l
  | l :: ls => l ++ '.' :: joinLabels ls

/-- Modelled from the spec: the HostnameMatcher component
(`Matches(pattern, target) -> bool`); the implementation file holding it
is absent from the tree. Rules, in order: ASCII-lowercase both sides;
reject if either side has an empty label; reject on differing label
counts; if the pattern's first label is exactly the single character
star, require all remaining labels equal position-wise (the target's
first label is then arbitrary but non-empty, already ensured by the
empty-label rejection); otherwise require all labels equal. -/
def Matches (pattern target : List Char) : Bool :=
  let p := splitLabels (lowerChars pattern)
  let t := splitLabels (lowerChars target)
  if p.any List.isEmpty || t.any List.isEmpty then false
  else if p.length ≠ t.length then false
  else if p.headD [] = ['*'] then p.tail == t.tail
  else p == t

/-- The structured certificate fields this core reads, plus the fields the
verifier is claimed to ignore: validity dates (encoded as YYYYMMDD
numbers) and the subject and issuer distinguished names. -/
structure Certificate where
  sanDnsNames : List (List Char)
  commonName : Option (List Char)
  subject : List Char
  issuer : List Char
  notBefore : Nat
  notAfter : Nat

/-- A completed TLS session: optionally a peer certificate (absence is a
first-class error condition), and whether chain-of-trust validation
actually ran and succeeded (the unit tests bypass it with a dummy
callback). -/
structure SSLSession where
  peerCertificate : Option Certificate
  trustVerified : Bool

/-- Modelled from the spec: the PeerIdentityExtractor component
(`GetIdentityClaims(session) -> (IdentityClaimSet, Option LegacyCommonName)
or NoCertificate`, the latter encoded as `none`); the implementation file
holding it is absent from the tree. SAN DNS entries are collected in
encoding order; the legacy common name is read only when that set is
empty. -/
def GetIdentityClaims (s : SSLSession) :
    Option (List (List Char) × Option (List Char)) :=
  match s.peerCertificate with
  | none => none
  | some cert =>
      some (cert.sanDnsNames,
        if cert.sanDnsNames.isEmpty then cert.commonName else none)

/-- Modelled from the spec: the VerificationOrchestrator component
(`VerifyPeerCertMatchesHost(session, hostname) -> bool`); the
implementation file holding it is absent from the tree. No certificate:
false. Non-empty SAN set: true iff some SAN entry matches the hostname,
never consulting the common name. Empty SAN set: match against the legacy
common name if present, else false. -/
def VerifyPeerCertMatchesHost (s : SSLSession) (hostname : List Char) : Bool :=
  match GetIdentityClaims s with
  | none => false
  | some (claimSet, legacyCn) =>
      if claimSet.isEmpty then
        match legacyCn with
        | some cn => Matches cn hostname
        | none => false
      else
        claimSet.any (fun pat => Matches pat hostname)

/-- The test certificate with CN star-dot-webrtc-dot-org and SAN DNS
entries foo.test, star-dot-bar-dot-test, test.webrtc.org; its DER
encoding places validity from 2018-04-03 to 2019-04-03 and makes it
self-signed (issuer equals subject). -/
def kFakeSSLCertificate : Certificate :=
  { sanDnsNames :=
      [("foo.test").data, ("*.bar.test").data, ("test.webrtc.org").data]
    commonName := some ("*.webrtc.org").data
    subject :=
      ("C=US, ST=WA, O=Fake WebRTC Certificate For Testing, OU=Fake WebRTC Certificate For Testing, CN=*.webrtc.org").data
    issuer :=
      ("C=US, ST=WA, O=Fake WebRTC Certificate For Testing, OU=Fake WebRTC Certificate For Testing, CN=*.webrtc.org").data
    notBefore := 20180403
    notAfter := 20190403 }

/-- The legacy test certificate: no SAN extension at all, only the CN
star-dot-webrtc-dot-org; same validity window, likewise self-signed. -/
def kFakeSSLCertificateLegacy : Certificate :=
  { sanDnsNames := []
    commonName := some ("*.webrtc.org").data
    subject :=
      ("C=US, ST=WA, O=Fake WebRTC Certificate For Testing, OU=Fake WebRTC Certificate For Testing, CN=*.webrtc.org").data
    issuer :=
      ("C=US, ST=WA, O=Fake WebRTC Certificate For Testing, OU=Fake WebRTC Certificate For Testing, CN=*.webrtc.org").data
    notBefore := 20180403
    notAfter := 20190403 }

/-- The session the unit test builds around `kFakeSSLCertificate`: a peer
certificate is present, and trust validation was bypassed by the dummy
verify callback. -/
def fakeCertSession : SSLSession :=
  { peerCertificate := some kFakeSSLCertificate, trustVerified := false }

/-- The session the unit test builds around `kFakeSSLCertificateLegacy`. -/
def legacyCertSession : SSLSession :=
  { peerCertificate := some kFakeSSLCertificateLegacy, trustVerified := false }

/-- The session of the no-peer-certificate test: a fresh SSL object with
no completed handshake and hence no peer certificate. -/
def noCertSession : SSLSession :=
  { peerCertificate := none, trustVerified := false }

/-! Supporting lemmas about case folding, label splitting and joining. -/

theorem asciiLower_eq_dot (c : Char) : asciiLower c = '.' ↔ c = '.' := by
  unfold asciiLower
  split <;> simp_all

theorem asciiLower_eq_star (c : Char) : asciiLower c = '*' ↔ c = '*' := by
  unfold asciiLower
  split <;> simp_all

theorem lowerChars_isEmpty (l : List Char) :
    (lowerChars l).isEmpty = l.isEmpty := by
  cases l <;> rfl

theorem lowerChars_eq_star (l : List Char) :
    lowerChars l = ['*'] ↔ l = ['*'] := by
  cases l with
  | nil => simp [lowerChars]
  | cons c cs => simp [lowerChars, asciiLower_eq_star]

theorem splitLabels_ne_nil (s : List Char) : splitLabels s ≠ [] := by
  induction s with
  | nil => simp [splitLabels]
  | cons c cs ih =>
      simp only [splitLabels]
      split
      · simp
      · split
        · simp
        · simp

theorem splitLabels_append (L s : List Char) (h : '.' ∉ L) :
    splitLabels (L ++ '.' :: s) = L :: splitLabels s := by
  induction L with
  | nil => simp [splitLabels]
  | cons c L ih =>
      have hc : c ≠ '.' := fun hc => h (by simp [hc])
      have hL : '.' ∉ L := fun hL => h (by simp [hL])
      simp only [List.cons_append, splitLabels, if_neg hc]
      rw [List.append_eq, ih hL]

theorem dot_not_mem_of_mem_splitLabels {s l : List Char}
    (h : l ∈ splitLabels s) : '.' ∉ l := by
  induction s generalizing l with
  | nil =>
      simp only [splitLabels, List.mem_singleton] at h
      subst h; simp
  | cons c cs ih =>
      simp only [splitLabels] at h
      by_cases hc : c = '.'
      · rw [if_pos hc, List.mem_cons] at h
        rcases h with h | h
        · subst h; simp
        · exact ih h
      · rw [if_neg hc] at h
        cases heq : splitLabels cs with
        | nil => exact absurd heq (splitLabels_ne_nil cs)
        | cons l0 ls =>
            rw [heq, List.mem_cons] at h
            rcases h with h | h
            · subst h
              intro hd
              rcases List.mem_cons.mp hd with hd | hd
              · exact hc hd.symm
              · exact ih (by rw [heq]; exact List.mem_cons_self l0 ls) hd
            · exact ih (by rw [heq]; exact List.mem_cons_of_mem l0 h)

theorem joinLabels_splitLabels (s : List Char) :
    joinLabels (splitLabels s) = s := by
  induction s with
  | nil => rfl
  | cons c cs ih =>
      simp only [splitLabels]
      by_cases hc : c = '.'
      · rw [if_pos hc]
        cases heq : splitLabels cs with
        | nil => exact absurd heq (splitLabels_ne_nil cs)
        | cons l0 ls =>
            rw [heq] at ih
            simp [joinLabels, hc, ih]
      · rw [if_neg hc]
        cases heq : splitLabels cs with
        | nil => exact absurd heq (splitLabels_ne_nil cs)
        | cons l0 ls =>
            rw [heq] at ih
            cases ls with
            | nil => simp_all [joinLabels]
            | cons l1 ls' => simp_all [joinLabels]

theorem splitLabels_inj {s t : List Char}
    (h : splitLabels s = splitLabels t) : s = t := by
  have hs := joinLabels_splitLabels s
  rw [h, joinLabels_splitLabels t] at hs
  exact hs.symm

theorem splitLabels_lowerChars (s : List Char) :
    splitLabels (lowerChars s) = (splitLabels s).map lowerChars := by
  induction s with
  | nil => rfl
  | cons c cs ih =>
      show splitLabels (asciiLower c :: lowerChars cs) = _
      simp only [splitLabels]
      by_cases hc : c = '.'
      · rw [if_pos ((asciiLower_eq_dot c).mpr hc), if_pos hc, ih]
        rfl
      · have hc' : asciiLower c ≠ '.' := fun h => hc ((asciiLower_eq_dot c).mp h)
        rw [if_neg hc', if_neg hc, ih]
        cases heq : splitLabels cs with
        | nil => exact absurd heq (splitLabels_ne_nil cs)
        | cons l0 ls => rfl

/-! Characterization of the matcher in terms of the label sequences. -/

theorem Matches_unfold (p t : List Char) :
    Matches p t =
      (if (splitLabels (lowerChars p)).any List.isEmpty ||
          (splitLabels (lowerChars t)).any List.isEmpty then false
       else if (splitLabels (lowerChars p)).length ≠
           (splitLabels (lowerChars t)).length then false
       else if (splitLabels (lowerChars p)).headD [] = ['*'] then
         (splitLabels (lowerChars p)).tail == (splitLabels (lowerChars t)).tail
       else splitLabels (lowerChars p) == splitLabels (lowerChars t)) := rfl

theorem matches_true_iff (p t : List Char) :
    Matches p t = true ↔
      (∀ l ∈ splitLabels (lowerChars p), l ≠ []) ∧
      (∀ l ∈ splitLabels (lowerChars t), l ≠ []) ∧
      (splitLabels (lowerChars p)).length = (splitLabels (lowerChars t)).length ∧
      (((splitLabels (lowerChars p)).headD [] = ['*'] ∧
        (splitLabels (lowerChars p)).tail = (splitLabels (lowerChars t)).tail) ∨
       ((splitLabels (lowerChars p)).headD [] ≠ ['*'] ∧
        splitLabels (lowerChars p) = splitLabels (lowerChars t))) := by
  rw [Matches_unfold]
  split_ifs with h1 h2 h3
  · simp only [false_iff]
    rw [Bool.or_eq_true] at h1
    rintro ⟨hp, ht, -, -⟩
    rcases h1 with h1 | h1 <;> rcases List.any_eq_true.mp h1 with ⟨l, hl, hle⟩
    · exact hp l hl (List.isEmpty_iff.mp hle)
    · exact ht l hl (List.isEmpty_iff.mp hle)
  · simp only [false_iff]
    rintro ⟨-, -, hlen, -⟩
    exact h2 hlen
  · rw [Bool.or_eq_true, not_or] at h1
    obtain ⟨h1p, h1t⟩ := h1
    rw [Bool.not_eq_true, List.any_eq_false] at h1p h1t
    rw [beq_iff_eq]
    constructor
    · intro htail
      refine ⟨?_, ?_, not_not.mp h2, Or.inl ⟨h3, htail⟩⟩
      · intro l hl hle
        exact h1p l hl (List.isEmpty_iff.mpr hle)
      · intro l hl hle
        exact h1t l hl (List.isEmpty_iff.mpr hle)
    · rintro ⟨-, -, -, hd⟩
      rcases hd with ⟨-, htail⟩ | ⟨hne, -⟩
      · exact htail
      · exact absurd h3 hne
  · rw [Bool.or_eq_true, not_or] at h1
    obtain ⟨h1p, h1t⟩ := h1
    rw [Bool.not_eq_true, List.any_eq_false] at h1p h1t
    rw [beq_iff_eq]
    constructor
    · intro heq
      refine ⟨?_, ?_, not_not.mp h2, Or.inr ⟨h3, heq⟩⟩
      · intro l hl hle
        exact h1p l hl (List.isEmpty_iff.mpr hle)
      · intro l hl hle
        exact h1t l hl (List.isEmpty_iff.mpr hle)
    · rintro ⟨-, -, -, hd⟩
      rcases hd with ⟨hstar, -⟩ | ⟨-, heq⟩
      · exact absurd hstar h3
      · exact heq

theorem splitLabels_lowerChars_star_dot (X : List Char) :
    splitLabels (lowerChars ('*' :: '.' :: X)) =
      ['*'] :: splitLabels (lowerChars X) := rfl

theorem no_empty_label_lowerChars {s : List Char}
    (h : (splitLabels s).any List.isEmpty = false) :
    ∀ l ∈ splitLabels (lowerChars s), l ≠ [] := by
  intro l hl
  rw [splitLabels_lowerChars] at hl
  rcases List.mem_map.mp hl with ⟨l0, hl0, rfl⟩
  rw [List.any_eq_false] at h
  intro hnil
  exact h l0 hl0 (List.isEmpty_iff.mpr (List.map_eq_nil_iff.mp hnil))

theorem headD_splitLabels_lowerChars (p : List Char) :
    (splitLabels (lowerChars p)).headD [] =
      lowerChars ((splitLabels p).headD []) := by
  rw [splitLabels_lowerChars]
  cases heq : splitLabels p with
  | nil => exact absurd heq (splitLabels_ne_nil p)
  | cons a l => rfl

theorem matches_exact_only {p t : List Char}
    (h : (splitLabels p).headD [] ≠ ['*']) (hm : Matches p t = true) :
    lowerChars p = lowerChars t := by
  rcases (matches_true_iff p t).mp hm with ⟨-, -, -, hd⟩
  rcases hd with ⟨hstar, -⟩ | ⟨-, heq⟩
  · rw [headD_splitLabels_lowerChars] at hstar
    exact absurd ((lowerChars_eq_star _).mp hstar) h
  · exact splitLabels_inj heq

/-! The claims, settled against the model. -/

/-- Claim C1: for every session that lacks a peer certificate,
VerifyPeerCertMatchesHost returns false for every hostname; the absence of
a certificate short-circuits before any pattern comparison. -/
theorem verify_no_peer_cert_false (s : SSLSession) (host : List Char)
    (h : s.peerCertificate = none) :
    VerifyPeerCertMatchesHost s host = false := by
  simp [VerifyPeerCertMatchesHost, GetIdentityClaims, h]

/-- Witness for claim C1 at the unit test's no-certificate session and the
hostname webrtc.org. -/
theorem verify_no_peer_cert_false_witness :
    noCertSession.peerCertificate = none ∧
    VerifyPeerCertMatchesHost noCertSession ("webrtc.org").data = false :=
  ⟨rfl, verify_no_peer_cert_false noCertSession ("webrtc.org").data rfl⟩

/-- Claim C2: whenever the SAN DNS-entry set is non-empty the verdict is
independent of the common name (so the legacy field is never consulted),
and concretely the test certificate with CN star-dot-webrtc-dot-org yields
false for www.webrtc.org although the CN pattern itself would match it. -/
theorem verify_san_shadows_cn :
    (∀ (c : Certificate) (cn' : Option (List Char)) (tv : Bool)
        (host : List Char), c.sanDnsNames ≠ [] →
        VerifyPeerCertMatchesHost ⟨some c, tv⟩ host =
          VerifyPeerCertMatchesHost ⟨some { c with commonName := cn' }, tv⟩ host) ∧
    Matches ("*.webrtc.org").data ("www.webrtc.org").data = true ∧
    VerifyPeerCertMatchesHost fakeCertSession ("www.webrtc.org").data = false := by
  refine ⟨?_, by decide, by decide⟩
  intro c cn' tv host hne
  cases hc : c.sanDnsNames with
  | nil => exact absurd hc hne
  | cons a as => simp [VerifyPeerCertMatchesHost, GetIdentityClaims, hc]

/-- Witness for claim C2: the test certificate has a non-empty SAN set and
its verdict on www.webrtc.org is unchanged when the common name is
removed entirely. -/
theorem verify_san_shadows_cn_witness :
    kFakeSSLCertificate.sanDnsNames ≠ [] ∧
    VerifyPeerCertMatchesHost ⟨some kFakeSSLCertificate, false⟩
        ("www.webrtc.org").data =
      VerifyPeerCertMatchesHost
        ⟨some { kFakeSSLCertificate with commonName := none }, false⟩
        ("www.webrtc.org").data :=
  ⟨by decide,
    verify_san_shadows_cn.1 kFakeSSLCertificate none false
      ("www.webrtc.org").data (by decide)⟩

/-- Claim C3: with an empty SAN DNS-entry set the verdict is exactly the
hostname matcher applied to the certificate's common name (identical
wildcard rules), and the legacy test certificate with CN
star-dot-webrtc-dot-org yields true on www, alice and bob dot webrtc.org
and false on a.b.webrtc.org, notwebrtc.org and webrtc.org. -/
theorem verify_cn_fallback :
    (∀ (cn subj iss : List Char) (nb na : Nat) (tv : Bool) (host : List Char),
        VerifyPeerCertMatchesHost
          ⟨some ⟨[], some cn, subj, iss, nb, na⟩, tv⟩ host = Matches cn host) ∧
    VerifyPeerCertMatchesHost legacyCertSession ("www.webrtc.org").data = true ∧
    VerifyPeerCertMatchesHost legacyCertSession ("alice.webrtc.org").data = true ∧
    VerifyPeerCertMatchesHost legacyCertSession ("bob.webrtc.org").data = true ∧
    VerifyPeerCertMatchesHost legacyCertSession ("a.b.webrtc.org").data = false ∧
    VerifyPeerCertMatchesHost legacyCertSession ("notwebrtc.org").data = false ∧
    VerifyPeerCertMatchesHost legacyCertSession ("webrtc.org").data = false := by
  refine ⟨?_, by decide, by decide, by decide, by decide, by decide, by decide⟩
  intro cn subj iss nb na tv host
  rfl

/-- Claim C4: a pattern star-dot-X (with X made of non-empty labels)
matches a target exactly when, after ASCII case folding, the target is
L-dot-X for a single non-empty dot-free label L; in particular it never
matches X itself (zero labels consumed), never a target with two or more
extra labels, and never a mere string suffix without label alignment. -/
theorem wildcard_pattern_matches_iff (X t : List Char)
    (hX : (splitLabels X).any List.isEmpty = false) :
    Matches ('*' :: '.' :: X) t = true ↔
      ∃ L, L ≠ [] ∧ '.' ∉ L ∧ lowerChars t = L ++ '.' :: lowerChars X := by
  rw [matches_true_iff, splitLabels_lowerChars_star_dot]
  constructor
  · rintro ⟨hp, ht, hlen, hd⟩
    rcases hd with ⟨-, htail⟩ | ⟨hne, -⟩
    · simp only [List.tail_cons] at htail
      cases hT : splitLabels (lowerChars t) with
      | nil => exact absurd hT (splitLabels_ne_nil _)
      | cons tf tr =>
          rw [hT, List.tail_cons] at htail
          refine ⟨tf, ?_, ?_, ?_⟩
          · exact ht tf (by rw [hT]; exact List.mem_cons_self tf tr)
          · exact dot_not_mem_of_mem_splitLabels
              (by rw [hT]; exact List.mem_cons_self tf tr)
          · obtain ⟨a, as, hax⟩ : ∃ a as, splitLabels (lowerChars X) = a :: as := by
              cases hsx : splitLabels (lowerChars X) with
              | nil => exact absurd hsx (splitLabels_ne_nil _)
              | cons a as => exact ⟨a, as, rfl⟩
            have hj := joinLabels_splitLabels (lowerChars t)
            have hjX := joinLabels_splitLabels (lowerChars X)
            rw [hT, ← htail, hax] at hj
            rw [hax] at hjX
            rw [show joinLabels (tf :: a :: as) =
                  tf ++ '.' :: joinLabels (a :: as) from rfl, hjX] at hj
            exact hj.symm
    · exact absurd rfl hne
  · rintro ⟨L, hL, hLd, heq⟩
    have hT : splitLabels (lowerChars t) = L :: splitLabels (lowerChars X) := by
      rw [heq]
      exact splitLabels_append L (lowerChars X) hLd
    rw [hT]
    refine ⟨?_, ?_, by simp, Or.inl ⟨rfl, rfl⟩⟩
    · intro l hl
      rcases List.mem_cons.mp hl with hl | hl
      · subst hl; simp
      · exact no_empty_label_lowerChars hX l hl
    · intro l hl
      rcases List.mem_cons.mp hl with hl | hl
      · subst hl; exact hL
      · exact no_empty_label_lowerChars hX l hl

/-- Witness for claim C4 at the test pattern star-dot-bar-dot-test and the
target a.bar.test. -/
theorem wildcard_pattern_matches_iff_witness :
    (splitLabels ("bar.test").data).any List.isEmpty = false ∧
    (Matches ('*' :: '.' :: ("bar.test").data) ("a.bar.test").data = true ↔
      ∃ L, L ≠ [] ∧ '.' ∉ L ∧
        lowerChars ("a.bar.test").data =
          L ++ '.' :: lowerChars ("bar.test").data) :=
  ⟨by decide,
    wildcard_pattern_matches_iff ("bar.test").data ("a.bar.test").data
      (by decide)⟩

/-- Claim C5: a pattern whose first label is not exactly the star token
matches a target only when pattern and target are identical after ASCII
case folding, which forces equal label counts. -/
theorem exact_pattern_requires_identical (p t : List Char)
    (h : (splitLabels p).headD [] ≠ ['*']) (hm : Matches p t = true) :
    lowerChars p = lowerChars t ∧
      (splitLabels p).length = (splitLabels t).length := by
  have heq := matches_exact_only h hm
  refine ⟨heq, ?_⟩
  have hlen := congrArg (fun s => (splitLabels s).length) heq
  simpa [splitLabels_lowerChars] using hlen

/-- Witness for claim C5 at the exact pattern foo.test against the target
FOO.TEST, which matches case-insensitively. -/
theorem exact_pattern_requires_identical_witness :
    (splitLabels ("foo.test").data).headD [] ≠ ['*'] ∧
    Matches ("foo.test").data ("FOO.TEST").data = true ∧
    (lowerChars ("foo.test").data = lowerChars ("FOO.TEST").data ∧
      (splitLabels ("foo.test").data).length =
        (splitLabels ("FOO.TEST").data).length) :=
  ⟨by decide, by decide,
    exact_pattern_requires_identical ("foo.test").data ("FOO.TEST").data
      (by decide) (by decide)⟩

/-- Claim C6: with a non-empty SAN DNS-entry set the orchestrator's
verdict is the boolean disjunction of the matcher over the entries, it is
true exactly when some entry matches, and it is invariant under any
permutation of the entry list. -/
theorem verify_san_disjunction_perm_invariant (s : SSLSession)
    (c : Certificate) (host : List Char) (hc : s.peerCertificate = some c)
    (hne : c.sanDnsNames ≠ []) :
    (VerifyPeerCertMatchesHost s host =
      c.sanDnsNames.any (fun pat => Matches pat host)) ∧
    (VerifyPeerCertMatchesHost s host = true ↔
      ∃ pat ∈ c.sanDnsNames, Matches pat host = true) ∧
    ∀ san' : List (List Char), c.sanDnsNames.Perm san' →
      VerifyPeerCertMatchesHost s host =
        VerifyPeerCertMatchesHost
          ⟨some { c with sanDnsNames := san' }, s.trustVerified⟩ host := by
  have hmain : VerifyPeerCertMatchesHost s host =
      c.sanDnsNames.any (fun pat => Matches pat host) := by
    cases hsan : c.sanDnsNames with
    | nil => exact absurd hsan hne
    | cons a as =>
        simp [VerifyPeerCertMatchesHost, GetIdentityClaims, hc, hsan]
  refine ⟨hmain, ?_, ?_⟩
  · rw [hmain]
    simp [List.any_eq_true]
  · intro san' hperm
    have hne' : san' ≠ [] := by
      intro h0
      rw [h0] at hperm
      exact hne hperm.eq_nil
    have h2 : VerifyPeerCertMatchesHost
        ⟨some { c with sanDnsNames := san' }, s.trustVerified⟩ host =
        san'.any (fun pat => Matches pat host) := by
      cases hsan' : san' with
      | nil => exact absurd hsan' hne'
      | cons a as =>
          simp [VerifyPeerCertMatchesHost, GetIdentityClaims, hsan']
    rw [hmain, h2, List.any_eq, List.any_eq]
    exact decide_eq_decide.mpr (by simp [hperm.mem_iff])

/-- Witness for claim C6 at the unit test's SAN-bearing session and the
hostname foo.test. -/
theorem verify_san_disjunction_perm_invariant_witness :
    fakeCertSession.peerCertificate = some kFakeSSLCertificate ∧
    kFakeSSLCertificate.sanDnsNames ≠ [] ∧
    VerifyPeerCertMatchesHost fakeCertSession ("foo.test").data =
      kFakeSSLCertificate.sanDnsNames.any
        (fun pat => Matches pat ("foo.test").data) :=
  ⟨rfl, by decide,
    (verify_san_disjunction_perm_invariant fakeCertSession kFakeSSLCertificate
      ("foo.test").data rfl (by decide)).1⟩

/-- Counterexample to claim C7 as stated: the pattern star-dot-f-star-o
carries a star inside its non-leftmost label, yet it is not compared as a
plain exact pattern — its leftmost label is exactly the star token, so it
wildcard-matches the non-identical target a.f-star-o. -/
theorem embedded_wildcard_claim_counterexample :
    (splitLabels ("*.f*o").data).tail.any (fun l => l.contains '*') = true ∧
    Matches ("*.f*o").data ("a.f*o").data = true ∧
    lowerChars ("a.f*o").data ≠ lowerChars ("*.f*o").data ∧
    ("a.f*o").data ≠ ("*.f*o").data := by
  refine ⟨by decide, by decide, by decide, by decide⟩

/-- Claim C7 as amended: for a pattern whose leftmost label is not exactly
the star token, a star embedded inside a label or occurring in a later
label is not a recognized wildcard — the pattern matches only targets
identical to it after ASCII case folding, with no wildcard expansion. -/
theorem embedded_wildcard_not_expanded (p t : List Char)
    (hstar : '*' ∈ p) (hhead : (splitLabels p).headD [] ≠ ['*'])
    (hm : Matches p t = true) :
    lowerChars p = lowerChars t := by
  clear hstar
  exact matches_exact_only hhead hm

/-- Witness for the amended claim C7 at the embedded-wildcard pattern
f-star-o dot test against a differently-cased literal copy of itself. -/
theorem embedded_wildcard_not_expanded_witness :
    '*' ∈ ("f*o.test").data ∧
    (splitLabels ("f*o.test").data).headD [] ≠ ['*'] ∧
    Matches ("f*o.test").data ("F*O.TEST").data = true ∧
    lowerChars ("f*o.test").data = lowerChars ("F*O.TEST").data :=
  ⟨by decide, by decide, by decide,
    embedded_wildcard_not_expanded ("f*o.test").data ("F*O.TEST").data
      (by decide) (by decide) (by decide)⟩

/-- Claim C8: the verdict is a pure function of the extracted claim data
and the hostname — any two sessions presenting the same identity claims
receive the same boolean for every hostname, with no retained state in the
model. -/
theorem verify_deterministic_in_claims (s₁ s₂ : SSLSession) (host : List Char)
    (h : GetIdentityClaims s₁ = GetIdentityClaims s₂) :
    VerifyPeerCertMatchesHost s₁ host = VerifyPeerCertMatchesHost s₂ host := by
  simp only [VerifyPeerCertMatchesHost, h]

/-- Witness for claim C8: the test session and a copy differing only in
the trust-validation flag carry the same claims and verdict. -/
theorem verify_deterministic_in_claims_witness :
    GetIdentityClaims fakeCertSession =
      GetIdentityClaims ⟨some kFakeSSLCertificate, true⟩ ∧
    VerifyPeerCertMatchesHost fakeCertSession ("foo.test").data =
      VerifyPeerCertMatchesHost ⟨some kFakeSSLCertificate, true⟩
        ("foo.test").data :=
  ⟨rfl, verify_deterministic_in_claims fakeCertSession
    ⟨some kFakeSSLCertificate, true⟩ ("foo.test").data rfl⟩

/-- Claim C9: the verdict is independent of the certificate's validity
period, and the test certificates — expired since 2019-04-03 — still
yield true on every hostname their SAN or CN patterns match. -/
theorem verify_ignores_validity_period :
    (∀ (c : Certificate) (nb na nb' na' : Nat) (tv : Bool) (host : List Char),
        VerifyPeerCertMatchesHost
          ⟨some { c with notBefore := nb, notAfter := na }, tv⟩ host =
        VerifyPeerCertMatchesHost
          ⟨some { c with notBefore := nb', notAfter := na' }, tv⟩ host) ∧
    kFakeSSLCertificate.notAfter = 20190403 ∧
    kFakeSSLCertificateLegacy.notAfter = 20190403 ∧
    VerifyPeerCertMatchesHost fakeCertSession ("foo.test").data = true ∧
    VerifyPeerCertMatchesHost fakeCertSession ("a.bar.test").data = true ∧
    VerifyPeerCertMatchesHost fakeCertSession ("b.bar.test").data = true ∧
    VerifyPeerCertMatchesHost fakeCertSession ("test.webrtc.org").data = true ∧
    VerifyPeerCertMatchesHost legacyCertSession ("www.webrtc.org").data = true := by
  refine ⟨?_, rfl, rfl, by decide, by decide, by decide, by decide, by decide⟩
  intro c nb na nb' na' tv host
  rfl

/-- Claim C10: the verdict is independent of chain-of-trust validation,
and the self-signed test certificate (issuer equal to subject), presented
over a session whose trust verification was bypassed, still yields true on
the hostnames its identity claims match. -/
theorem verify_ignores_trust_validation :
    (∀ (cert : Certificate) (tv tv' : Bool) (host : List Char),
        VerifyPeerCertMatchesHost ⟨some cert, tv⟩ host =
        VerifyPeerCertMatchesHost ⟨some cert, tv'⟩ host) ∧
    kFakeSSLCertificate.issuer = kFakeSSLCertificate.subject ∧
    fakeCertSession.trustVerified = false ∧
    VerifyPeerCertMatchesHost fakeCertSession ("foo.test").data = true ∧
    VerifyPeerCertMatchesHost fakeCertSession ("a.bar.test").data = true ∧
    VerifyPeerCertMatchesHost fakeCertSession ("test.webrtc.org").data = true := by
  refine ⟨?_, rfl, rfl, by decide, by decide, by decide⟩
  intro cert tv tv' host
  rfl

end OpensslUtility
